import Mathlib

/-
Verification of the data-cleaning pipeline (field cleaners, sale validators,
and the sales-to-employee reconciliation engine) as a shallow embedding.

Conventions of the embedding:
- Python strings are Lean String; per-character primitives (lower, strip,
  digit extraction) are modelled on the ASCII fragment, which is the only
  fragment the cleaned data and the regex character classes use.
- Python float arithmetic in the validators is modelled with exact
  rationals; the tolerance literal 0.01 becomes 1/100.
- pandas date columns are modelled as cells that are either an already
  parsed datetime (Option Int, none = NaT) or a raw unparsed value; the
  to_datetime coercion is a parameter (parse) of the model.
-/

/-! ## Python string primitives -/

/-- ASCII fragment of str.lower on a single code point. -/
def lowerNat (n : Nat) : Nat := if 65 ≤ n ∧ n ≤ 90 then n + 32 else n

/-- ASCII fragment of str.lower on a single character. -/
def lowerChar (c : Char) : Char := Char.ofNat (lowerNat c.toNat)

/-- Model of str.lower. -/
def pyToLower (s : String) : String := String.mk (s.toList.map lowerChar)

/-- The whitespace characters removed by str.strip (ASCII set). -/
def pyIsSpace (c : Char) : Bool :=
  c = ' ' || c = '\t' || c = '\n' || c = '\r' || c = Char.ofNat 11 || c = Char.ofNat 12

/-- Model of str.strip: drop whitespace from both ends. -/
def pyStrip (s : String) : String :=
  String.mk (((s.toList.dropWhile pyIsSpace).reverse.dropWhile pyIsSpace).reverse)

/-! ## Phone cleaner (src/cleaners/field_cleaners/phone_cleaner.py)

The functions take the already stringified input (str(phone)); the
try/except wrappers cannot fire on string input, so they are not modelled. -/

/-- extract_digits: empty or the literal "nan" (case-insensitive) give "";
otherwise every non-digit character is removed (re.sub of the class D). -/
def extract_digits (phone : String) : String :=
  if phone = "" ∨ pyToLower phone = "nan" then ""
  else String.mk (phone.toList.filter Char.isDigit)

/-- phone_is_valid: ten digits, or eleven digits starting with 1. -/
def phone_is_valid (phone : String) : Bool :=
  let digits := extract_digits phone
  if digits.length = 10 then true
  else if digits.length = 11 ∧ digits.toList.head? = some '1' then true
  else false

/-- clean_zeroes: extract the digits, then lstrip the zero character. -/
def clean_zeroes (phone : String) : String :=
  String.mk ((extract_digits phone).toList.dropWhile (fun c => c = '0'))

/-- phone_clean_and_validate, the composite cleaner. -/
def phone_clean_and_validate (phone : String) : String :=
  let digits := extract_digits phone
  let cleaned := clean_zeroes digits
  if phone = "" ∨ pyToLower phone = "nan" ∨ phone_is_valid cleaned = false then "0000000000"
  else if cleaned ≠ "" then cleaned
  else "0000000000"

/-! ## Character-level facts -/

theorem char_le_toNat (a b : Char) : a ≤ b ↔ a.toNat ≤ b.toNat := by
  simp [Char.le_def, UInt32.le_def, BitVec.le_def, Char.toNat, UInt32.toNat]

theorem isDigit_toNat {c : Char} (h : c.isDigit = true) : 48 ≤ c.toNat ∧ c.toNat ≤ 57 := by
  simp [Char.isDigit] at h
  obtain ⟨h1, h2⟩ := h
  constructor
  · simpa [UInt32.le_def, BitVec.le_def, Char.toNat, UInt32.toNat] using h1
  · simpa [UInt32.le_def, BitVec.le_def, Char.toNat, UInt32.toNat] using h2

theorem toNat_ofNat_valid (n : Nat) (h : n.isValidChar) : (Char.ofNat n).toNat = n := by
  simp [Char.ofNat, h, Char.toNat, Char.ofNatAux, UInt32.toNat, BitVec.toNat_ofNatLt]

theorem lowerChar_fix_of_not_upper {c : Char} (h : ¬ (65 ≤ c.toNat ∧ c.toNat ≤ 90)) :
    lowerChar c = c := by
  unfold lowerChar lowerNat
  rw [if_neg h, Char.ofNat_toNat]

theorem lowerChar_digit {c : Char} (h : c.isDigit = true) : lowerChar c = c := by
  have := isDigit_toNat h
  exact lowerChar_fix_of_not_upper (by omega)

theorem string_mk_toList (s : String) : String.mk s.toList = s := rfl

theorem pyToLower_of_digits {s : String} (h : ∀ c ∈ s.toList, c.isDigit = true) :
    pyToLower s = s := by
  unfold pyToLower
  rw [List.map_congr_left (fun c hc => lowerChar_digit (h c hc))]
  rw [show List.map (fun c => c) s.toList = s.toList from List.map_id_fun.symm ▸ rfl]
  rfl

/-! ## Phone cleaner lemmas -/

theorem extract_digits_all (p : String) :
    ∀ c ∈ (extract_digits p).toList, c.isDigit = true := by
  unfold extract_digits
  split
  · intro c hc; simp at hc
  · intro c hc
    exact (List.mem_filter.mp hc).2

theorem clean_zeroes_all (p : String) :
    ∀ c ∈ (clean_zeroes p).toList, c.isDigit = true := by
  unfold clean_zeroes
  intro c hc
  exact extract_digits_all p c ((List.dropWhile_sublist _).subset hc)

theorem extract_digits_self {s : String} (hne : s ≠ "")
    (h : ∀ c ∈ s.toList, c.isDigit = true) : extract_digits s = s := by
  have hlow : pyToLower s = s := pyToLower_of_digits h
  have hnan : s ≠ "nan" := by
    intro he
    have : ('n' : Char).isDigit = true := h 'n' (by rw [he]; decide)
    exact absurd this (by decide)
  unfold extract_digits
  rw [if_neg (by rw [hlow]; tauto)]
  rw [List.filter_eq_self.mpr h, string_mk_toList]

/-- C3 counterexample: on the eleven-digit input 12345678901 the cleaner
returns the input itself, a string of length 11 that is neither ten digits
long nor the sentinel, refuting the claim that every output is either
exactly ten digits or the sentinel. -/
theorem phone_eleven_digit_output :
    phone_clean_and_validate "12345678901" = "12345678901" ∧
    ("12345678901" : String).length = 11 ∧ ("12345678901" : String) ≠ "0000000000" := by
  decide

/-- C3 amended: for every input string, phone_clean_and_validate returns
either the sentinel 0000000000, or a string of exactly 10 digits, or a
string of exactly 11 digits beginning with 1. -/
theorem phone_clean_and_validate_shape (p : String) :
    phone_clean_and_validate p = "0000000000" ∨
    ((phone_clean_and_validate p).length = 10 ∧
      ∀ c ∈ (phone_clean_and_validate p).toList, c.isDigit = true) ∨
    ((phone_clean_and_validate p).length = 11 ∧
      (phone_clean_and_validate p).toList.head? = some '1' ∧
      ∀ c ∈ (phone_clean_and_validate p).toList, c.isDigit = true) := by
  simp only [phone_clean_and_validate]
  by_cases h1 : p = "" ∨ pyToLower p = "nan" ∨
      phone_is_valid (clean_zeroes (extract_digits p)) = false
  · rw [if_pos h1]; left; rfl
  · rw [if_neg h1]
    by_cases h2 : clean_zeroes (extract_digits p) ≠ ""
    · rw [if_pos h2]
      have hval : phone_is_valid (clean_zeroes (extract_digits p)) = true := by
        cases hb : phone_is_valid (clean_zeroes (extract_digits p)) with
        | false => exact absurd (Or.inr (Or.inr hb)) h1
        | true => rfl
      have hdig := clean_zeroes_all (extract_digits p)
      have hex := extract_digits_self h2 hdig
      simp only [phone_is_valid] at hval
      rw [hex] at hval
      split_ifs at hval with hA hB
      · right; left; exact ⟨hA, hdig⟩
      · right; right; exact ⟨hB.1, hB.2, hdig⟩
    · rw [if_neg h2]; left; rfl

/-! ## Email cleaner (src/cleaners/field_cleaners/email_cleaner.py) -/

namespace EmailCleaner

/-- Character class of the local part of EMAIL_PATTERN. -/
def isLocalChar (c : Char) : Bool :=
  c.isAlpha || c.isDigit || c = '.' || c = '_' || c = '%' || c = '+' || c = '-'

/-- Character class of the domain part of EMAIL_PATTERN. -/
def isDomainChar (c : Char) : Bool :=
  c.isAlpha || c.isDigit || c = '.' || c = '-'

/-- Whether the domain part (everything after the at sign) matches the
fragment of EMAIL_PATTERN after the at sign: one or more domain characters,
then a dot, then at least two ASCII letters, up to the end. Because the
letters of the TLD contain no dot, that decomposition exists exactly when
the segment after the LAST dot is two or more letters and something
nonempty precedes that dot. -/
def emailDomainOk (dom : List Char) : Bool :=
  match dom.reverse.dropWhile (fun c => !(c = '.')) with
  | [] => false
  | _ :: u =>
      decide (2 ≤ (dom.reverse.takeWhile (fun c => !(c = '.'))).length) &&
      (dom.reverse.takeWhile (fun c => !(c = '.'))).all Char.isAlpha &&
      !u.isEmpty && u.all isDomainChar

/-- Whether a whole string matches EMAIL_PATTERN: a nonempty local part
(characters from the local class, which excludes the at sign), one at sign,
and a matching domain. The split is at the first at sign; any further at
sign falls into the domain characters and makes the match fail, as in the
regex. -/
def emailFormatOk (cs : List Char) : Bool :=
  match cs.dropWhile (fun c => !(c = '@')) with
  | [] => false
  | _ :: dom =>
      !(cs.takeWhile (fun c => !(c = '@'))).isEmpty &&
      (cs.takeWhile (fun c => !(c = '@'))).all isLocalChar &&
      emailDomainOk dom

/-- clean: empty input gives the sentinel "nan"; otherwise strip and
lowercase, return the result when it matches EMAIL_PATTERN and "nan"
otherwise. -/
def clean (_email : String) : String :=
  if _email = "" then "nan"
  else
    let cleaned := pyToLower (pyStrip _email)
    if emailFormatOk cleaned.toList then cleaned else "nan"

end EmailCleaner

/-! ## Lowercasing and stripping lemmas -/

theorem char_toNat_valid (c : Char) : c.toNat.isValidChar := c.valid

theorem lowerNat_idem (n : Nat) : lowerNat (lowerNat n) = lowerNat n := by
  unfold lowerNat; split_ifs <;> omega

theorem lowerNat_valid {n : Nat} (h : n.isValidChar) : (lowerNat n).isValidChar := by
  unfold lowerNat
  split_ifs with h1
  · exact Or.inl (by omega)
  · exact h

theorem toNat_lowerChar (c : Char) : (lowerChar c).toNat = lowerNat c.toNat :=
  toNat_ofNat_valid _ (lowerNat_valid (char_toNat_valid c))

theorem lowerChar_idem (c : Char) : lowerChar (lowerChar c) = lowerChar c := by
  show Char.ofNat (lowerNat (lowerChar c).toNat) = lowerChar c
  rw [toNat_lowerChar, lowerNat_idem]
  rfl

theorem pyToLower_idem (s : String) : pyToLower (pyToLower s) = pyToLower s := by
  unfold pyToLower
  rw [show (String.mk (s.toList.map lowerChar)).toList = s.toList.map lowerChar from rfl]
  rw [List.map_map]
  congr 1
  exact List.map_congr_left (fun c _ => lowerChar_idem c)

theorem pyIsSpace_cases {c : Char} (h : pyIsSpace c = true) :
    c = ' ' ∨ c = '\t' ∨ c = '\n' ∨ c = '\r' ∨ c = Char.ofNat 11 ∨ c = Char.ofNat 12 := by
  simp [pyIsSpace] at h
  tauto

theorem dropWhile_eq_self_of_head {p : Char → Bool} {l : List Char} {a : Char}
    (ha : l.head? = some a) (hp : p a = false) : l.dropWhile p = l := by
  cases l with
  | nil => rfl
  | cons x xs =>
      simp at ha
      subst ha
      simp [List.dropWhile_cons, hp]

theorem head_mem_of_head_some {l : List Char} {a : Char}
    (ha : l.head? = some a) : a ∈ l := by
  cases l with
  | nil => simp at ha
  | cons x xs =>
      simp at ha
      subst ha
      exact List.mem_cons_self x xs

theorem pyStrip_fix {s : String} {a b : Char}
    (ha : s.toList.head? = some a) (hpa : pyIsSpace a = false)
    (hb : s.toList.getLast? = some b) (hpb : pyIsSpace b = false) :
    pyStrip s = s := by
  unfold pyStrip
  rw [dropWhile_eq_self_of_head ha hpa]
  rw [dropWhile_eq_self_of_head (by rw [List.head?_reverse]; exact hb) hpb]
  rw [List.reverse_reverse]
  exact string_mk_toList s

/-! ## Email cleaner lemmas -/

namespace EmailCleaner

theorem isLocalChar_not_space {c : Char} (h : isLocalChar c = true) : pyIsSpace c = false := by
  cases hs : pyIsSpace c
  · rfl
  · rcases pyIsSpace_cases hs with h1|h1|h1|h1|h1|h1 <;> subst h1 <;> revert h <;> decide

theorem isAlpha_not_space {c : Char} (h : c.isAlpha = true) : pyIsSpace c = false := by
  cases hs : pyIsSpace c
  · rfl
  · rcases pyIsSpace_cases hs with h1|h1|h1|h1|h1|h1 <;> subst h1 <;> revert h <;> decide

theorem emailFormatOk_ends {cs : List Char} (h : emailFormatOk cs = true) :
    ∃ a b, cs.head? = some a ∧ pyIsSpace a = false ∧
      cs.getLast? = some b ∧ pyIsSpace b = false := by
  unfold emailFormatOk at h
  split at h
  · exact absurd h (by simp)
  · next d dom heq =>
      simp only [Bool.and_eq_true] at h
      obtain ⟨⟨hne, hall⟩, hdom⟩ := h
      have hcs : cs = cs.takeWhile (fun c => !(c = '@')) ++ (d :: dom) := by
        rw [← heq, List.takeWhile_append_dropWhile]
      have hlne : cs.takeWhile (fun c => !(c = '@')) ≠ [] := by
        simpa using hne
      obtain ⟨a, ha⟩ : ∃ a, (cs.takeWhile (fun c => !(c = '@'))).head? = some a := by
        cases hl : (cs.takeWhile (fun c => !(c = '@'))).head? with
        | none => exact absurd (List.head?_eq_none_iff.mp hl) hlne
        | some a => exact ⟨a, rfl⟩
      have hamem : a ∈ cs.takeWhile (fun c => !(c = '@')) := head_mem_of_head_some ha
      have haloc : isLocalChar a = true := by
        rw [List.all_eq_true] at hall
        exact hall a hamem
      -- now the domain side
      unfold emailDomainOk at hdom
      split at hdom
      · exact absurd hdom (by simp)
      · next e u heq2 =>
          simp only [Bool.and_eq_true, decide_eq_true_eq] at hdom
          obtain ⟨⟨⟨ht2, htall⟩, hune⟩, huall⟩ := hdom
          have htne : dom.reverse.takeWhile (fun c => !(c = '.')) ≠ [] := by
            intro hnil
            rw [hnil] at ht2
            simp at ht2
          obtain ⟨b, hbh⟩ : ∃ b, (dom.reverse.takeWhile (fun c => !(c = '.'))).head? = some b := by
            cases hl : (dom.reverse.takeWhile (fun c => !(c = '.'))).head? with
            | none => exact absurd (List.head?_eq_none_iff.mp hl) htne
            | some b => exact ⟨b, rfl⟩
          have hbmem : b ∈ dom.reverse.takeWhile (fun c => !(c = '.')) := head_mem_of_head_some hbh
          have hbalpha : b.isAlpha = true := by
            rw [List.all_eq_true] at htall
            exact htall b hbmem
          have hdomrev : dom.reverse =
              dom.reverse.takeWhile (fun c => !(c = '.')) ++ (e :: u) := by
            rw [← heq2, List.takeWhile_append_dropWhile]
          have hdomlast : dom.getLast? = some b := by
            rw [← List.head?_reverse, hdomrev, List.head?_append, hbh]
            rfl
          have hdomne : dom ≠ [] := by
            intro hnil
            rw [hnil] at hdomrev
            simp at hdomrev
          refine ⟨a, b, ?_, isLocalChar_not_space haloc, ?_, isAlpha_not_space hbalpha⟩
          · rw [hcs, List.head?_append, ha]
            rfl
          · rw [hcs, List.getLast?_append]
            rw [show (d :: dom).getLast? = dom.getLast? from ?_, hdomlast]
            · rfl
            · cases dom with
              | nil => exact absurd rfl hdomne
              | cons x xs => simp [List.getLast?_cons_cons]

theorem clean_cases (s : String) :
    clean s = "nan" ∨
      (clean s = pyToLower (pyStrip s) ∧
        emailFormatOk (pyToLower (pyStrip s)).toList = true) := by
  simp only [clean]
  split_ifs with h0 h1
  · left; rfl
  · right; exact ⟨rfl, h1⟩
  · left; rfl

theorem clean_nan : clean "nan" = "nan" := by decide

theorem clean_fixed {c : String} (hm : emailFormatOk c.toList = true)
    (hl : pyToLower c = c) : clean c = c := by
  obtain ⟨a, b, ha, hpa, hb, hpb⟩ := emailFormatOk_ends hm
  have hne : c ≠ "" := by
    intro he
    rw [he] at ha
    simp at ha
  have hstrip := pyStrip_fix ha hpa hb hpb
  simp only [clean]
  rw [if_neg hne, hstrip, hl, if_pos hm]

end EmailCleaner

/-- C8: for every input string, the email cleaner returns either a string
matching EMAIL_PATTERN that is its own lowercasing (a lowercase string) or
exactly the sentinel "nan"; and clean is idempotent. -/
theorem email_clean_shape_idem (s : String) :
    (EmailCleaner.clean s = "nan" ∨
      (EmailCleaner.emailFormatOk (EmailCleaner.clean s).toList = true ∧
        pyToLower (EmailCleaner.clean s) = EmailCleaner.clean s)) ∧
    EmailCleaner.clean (EmailCleaner.clean s) = EmailCleaner.clean s := by
  rcases EmailCleaner.clean_cases s with h | ⟨heq, hm⟩
  · exact ⟨Or.inl h, by rw [h]; exact EmailCleaner.clean_nan⟩
  · have hl : pyToLower (EmailCleaner.clean s) = EmailCleaner.clean s := by
      rw [heq]
      exact pyToLower_idem (pyStrip s)
    have hm2 : EmailCleaner.emailFormatOk (EmailCleaner.clean s).toList = true := by
      rw [heq]
      exact hm
    exact ⟨Or.inr ⟨hm2, hl⟩, EmailCleaner.clean_fixed hm2 hl⟩

/-! ## Sale validators (src/validators/sales_validator.py)

Each predicate reads a field with sale.get(name) or sale.get(underscore
name): the public value wins only when it is truthy, a numeric value being
truthy exactly when it is nonzero. Python float arithmetic is modelled with
exact rationals; the tolerance literal 0.01 becomes 1/100. -/

/-- A sale record as the validator predicates see it: for each numeric
field, the value under the public key and the value under the underscore
key (suffix alt here); none models a missing key (dict.get default). -/
structure SaleRec where
  quantity : Option ℚ
  quantity_alt : Option ℚ
  unit_price : Option ℚ
  unit_price_alt : Option ℚ
  total_price : Option ℚ
  total_price_alt : Option ℚ
deriving DecidableEq

/-- Python x or y as applied to two dict.get results holding numbers. -/
def pyOrNum (a b : Option ℚ) : Option ℚ :=
  match a with
  | some v => if v ≠ 0 then some v else b
  | none => b

/-- validate_prices: both price lookups must produce a value and both must
be nonnegative; otherwise False. -/
def validate_prices (sale : SaleRec) : Bool :=
  match pyOrNum sale.unit_price sale.unit_price_alt,
        pyOrNum sale.total_price sale.total_price_alt with
  | some u, some t => decide (0 ≤ u) && decide (0 ≤ t)
  | _, _ => false

/-- validate_total_price: all three operand lookups must produce a value
and the total must be within 0.01 of quantity times unit price. -/
def validate_total_price (sale : SaleRec) : Bool :=
  match pyOrNum sale.quantity sale.quantity_alt,
        pyOrNum sale.unit_price sale.unit_price_alt,
        pyOrNum sale.total_price sale.total_price_alt with
  | some q, some u, some t => decide (|t - q * u| < 1/100)
  | _, _, _ => false

/-- C6: when the three operand lookups of validate_total_price all produce
a value, the result is True exactly when the absolute deviation of the
total from quantity times unit price is strictly below 1/100; when any
lookup produces no value the result is False. -/
theorem validate_total_price_spec (sale : SaleRec) :
    (∀ q u t, pyOrNum sale.quantity sale.quantity_alt = some q →
      pyOrNum sale.unit_price sale.unit_price_alt = some u →
      pyOrNum sale.total_price sale.total_price_alt = some t →
      (validate_total_price sale = true ↔ |t - q * u| < 1/100)) ∧
    ((pyOrNum sale.quantity sale.quantity_alt = none ∨
      pyOrNum sale.unit_price sale.unit_price_alt = none ∨
      pyOrNum sale.total_price sale.total_price_alt = none) →
      validate_total_price sale = false) := by
  unfold validate_total_price
  rcases hq : pyOrNum sale.quantity sale.quantity_alt with _ | q <;>
    rcases hu : pyOrNum sale.unit_price sale.unit_price_alt with _ | u <;>
      rcases ht : pyOrNum sale.total_price sale.total_price_alt with _ | t <;>
        simp_all

/-- Record with quantity 2, unit price 10, total price 20 (public keys). -/
def saleEx20 : SaleRec := ⟨some 2, none, some 10, none, some 20, none⟩

/-- Record identical to saleEx20 except the total price is 20.02. -/
def saleEx2002 : SaleRec := ⟨some 2, none, some 10, none, some (2002/100), none⟩

/-- C6 witness: the boundary instances named by the claim, total 20 gives
True and total 20.02 gives False. -/
theorem validate_total_price_spec_witness :
    validate_total_price saleEx20 = true ∧ validate_total_price saleEx2002 = false := by
  constructor
  · exact ((validate_total_price_spec saleEx20).1 2 10 20
      (by norm_num [saleEx20, pyOrNum]) (by norm_num [saleEx20, pyOrNum])
      (by norm_num [saleEx20, pyOrNum])).mpr (by rw [abs_lt]; norm_num)
  · have h := (validate_total_price_spec saleEx2002).1 2 10 (2002/100)
      (by norm_num [saleEx2002, pyOrNum]) (by norm_num [saleEx2002, pyOrNum])
      (by norm_num [saleEx2002, pyOrNum])
    cases hb : validate_total_price saleEx2002 with
    | false => rfl
    | true => exact absurd (h.mp hb) (by rw [abs_lt]; push_neg; intro hx; norm_num)

/-- Record whose unit price is present and zero under the public key only,
with a positive total price. -/
def saleZeroUnit : SaleRec := ⟨none, none, some 0, none, some 5, none⟩

/-- C7 counterexample: a record with both prices present (unit price 0,
total price 5), both nonnegative, on which validate_prices returns False,
refuting the claim that presence plus nonnegativity suffices (zero prices
included). -/
theorem validate_prices_zero_cex :
    saleZeroUnit.unit_price = some 0 ∧ saleZeroUnit.total_price = some 5 ∧
    validate_prices saleZeroUnit = false := by
  refine ⟨rfl, rfl, ?_⟩
  norm_num [validate_prices, saleZeroUnit, pyOrNum]

/-- C7 amended: validate_prices returns True exactly when the two
truthiness-filtering dual-name lookups both produce a value and both values
are nonnegative; in particular a price that is present but zero under the
public key with no underscore fallback counts as missing and gives False. -/
theorem validate_prices_spec (sale : SaleRec) :
    validate_prices sale = true ↔
      (∃ u t, pyOrNum sale.unit_price sale.unit_price_alt = some u ∧
        pyOrNum sale.total_price sale.total_price_alt = some t ∧ 0 ≤ u ∧ 0 ≤ t) := by
  unfold validate_prices
  rcases hu : pyOrNum sale.unit_price sale.unit_price_alt with _ | u <;>
    rcases ht : pyOrNum sale.total_price sale.total_price_alt with _ | t <;>
      simp_all

/-- C10: a field that is present under the public name with the falsy value
zero and absent under the underscore name is treated as missing: quantity
zero forces validate_total_price to False (even when the total equals
quantity times unit price) and unit price zero forces validate_prices to
False. -/
theorem falsy_zero_field_treated_missing (sale : SaleRec) :
    (sale.quantity = some 0 → sale.quantity_alt = none →
      validate_total_price sale = false) ∧
    (sale.unit_price = some 0 → sale.unit_price_alt = none →
      validate_prices sale = false) := by
  constructor
  · intro h1 h2
    have hq : pyOrNum sale.quantity sale.quantity_alt = none := by
      rw [h1, h2]; simp [pyOrNum]
    unfold validate_total_price
    rcases hu : pyOrNum sale.unit_price sale.unit_price_alt with _ | u <;>
      rcases ht : pyOrNum sale.total_price sale.total_price_alt with _ | t <;>
        simp [hq]
  · intro h1 h2
    have hu : pyOrNum sale.unit_price sale.unit_price_alt = none := by
      rw [h1, h2]; simp [pyOrNum]
    unfold validate_prices
    rcases ht : pyOrNum sale.total_price sale.total_price_alt with _ | t <;>
      simp [hu]

/-- Record with quantity present and zero, unit price 5, total price 0, so
the total equals quantity times unit price. -/
def saleZeroQty : SaleRec := ⟨some 0, none, some 5, none, some 0, none⟩

/-- C10 witness: the zero-quantity record (whose total satisfies the price
equation exactly) fails validate_total_price, and the zero-unit-price
record fails validate_prices. -/
theorem falsy_zero_field_treated_missing_witness :
    validate_total_price saleZeroQty = false ∧ validate_prices saleZeroUnit = false :=
  ⟨(falsy_zero_field_treated_missing saleZeroQty).1 rfl rfl,
    (falsy_zero_field_treated_missing saleZeroUnit).2 rfl rfl⟩

/-! ## Reconciliation engine (src/cleaners/sales_cleaner.py)

clean_data validates the presence of the required columns, coerces the two
date columns with ensure_datetime, left-joins sales to employees on the
seller id, flags joined rows whose sale date precedes the hire date, and
for each flagged row reassigns the seller at that row label of the sales
frame to the first employee (in employee-table order) hired on or before
the sale date, when one exists. -/

/-- A cell of a pandas date column: either an already parsed datetime
value (none is NaT) or a raw value not yet coerced. Datetimes are modelled
as integers; only their order matters. -/
inductive Cell where
  | dt : Option Int → Cell
  | raw : String → Cell
deriving DecidableEq

/-- The datetime value a cell gets under pd.to_datetime with coercing
errors; parse is the external parser for raw values. -/
def Cell.toDt (parse : String → Option Int) : Cell → Option Int
  | Cell.dt d => d
  | Cell.raw s => parse s

/-- Whether the cell already holds a datetime. A column has datetime dtype
(pd.api.types.is_datetime64_any_dtype) when all its cells do. -/
def Cell.isDt : Cell → Bool
  | Cell.dt _ => true
  | Cell.raw _ => false

/-- The datetime value of a cell of an already coerced column. Only
applied after ensure_datetime, so the raw case never arises there. -/
def Cell.value : Cell → Option Int
  | Cell.dt d => d
  | Cell.raw _ => none

/-- A sales row: the two required columns and, opaquely, every other
column of the row (the type parameter). -/
structure SaleRow (α : Type) where
  sale_date : Cell
  seller_employee_id : String
  other : α
deriving DecidableEq

/-- An employee row: the two required columns. -/
structure EmpRow where
  employee_id : String
  hire_date : Cell
deriving DecidableEq

/-- The sales table: presence flags for the two required columns plus the
rows (with a default RangeIndex). A false flag models the column being
absent from df.columns; the per-row cells are then irrelevant. -/
structure SalesTable (α : Type) where
  hasSaleDate : Bool
  hasSellerId : Bool
  rows : List (SaleRow α)
deriving DecidableEq

/-- The employee table, with presence flags as in SalesTable. -/
structure EmpTable where
  hasEmployeeId : Bool
  hasHireDate : Bool
  rows : List EmpRow
deriving DecidableEq

/-- ensure_datetime on the sale_date column: if the column is not already
of datetime dtype, the whole column is coerced with pd.to_datetime
(unparseable cells become NaT); otherwise it is left as is. -/
def ensure_datetime_sales (parse : String → Option Int) (rows : List (SaleRow α)) :
    List (SaleRow α) :=
  if rows.all (fun r => r.sale_date.isDt) then rows
  else rows.map (fun r => { r with sale_date := Cell.dt (r.sale_date.toDt parse) })

/-- ensure_datetime on the hire_date column of the employee table. -/
def ensure_datetime_emps (parse : String → Option Int) (rows : List EmpRow) : List EmpRow :=
  if rows.all (fun r => r.hire_date.isDt) then rows
  else rows.map (fun r => { r with hire_date := Cell.dt (r.hire_date.toDt parse) })

/-- Strict datetime comparison as pandas evaluates it on date columns: any
comparison involving NaT is false. -/
def dtLt : Option Int → Option Int → Bool
  | some a, some b => decide (a < b)
  | _, _ => false

/-- Nonstrict datetime comparison; NaT compares false. -/
def dtLe : Option Int → Option Int → Bool
  | some a, some b => decide (a ≤ b)
  | _, _ => false

/-- A row of the joined frame; only the two columns the loop reads. -/
structure MergedRow where
  sale_date : Option Int
  hire_date : Option Int
deriving DecidableEq

/-- The employee rows whose employee_id equals the given seller id, in
table order. -/
def matchingEmps (erows : List EmpRow) (sid : String) : List EmpRow :=
  erows.filter (fun e => e.employee_id = sid)

/-- The left join of sales to employees on seller_employee_id equal to
employee_id: each sale row yields one joined row per matching employee
row, or a single row with hire date NaT when no employee matches. The
joined frame gets a fresh RangeIndex in row order. -/
def mergedRows (srows : List (SaleRow α)) (erows : List EmpRow) : List MergedRow :=
  srows.flatMap (fun s =>
    match matchingEmps erows s.seller_employee_id with
    | [] => [⟨s.sale_date.value, none⟩]
    | es => es.map (fun e => ⟨s.sale_date.value, e.hire_date.value⟩))

/-- The invalid mask of one joined row: sale_date strictly before
hire_date (false on NaT, so unmatched sales are never flagged). -/
def isInvalidRow (m : MergedRow) : Bool :=
  dtLt m.sale_date m.hire_date

/-- Pairs each element with its positional index starting at k, modelling
the RangeIndex labels of the joined frame. -/
def enumIdx : Nat → List β → List (Nat × β)
  | _, [] => []
  | k, a :: as => (k, a) :: enumIdx (k+1) as

/-- The flagged rows of the joined frame: the labels of invalid rows
together with the row each label addresses (merged.loc of the label). -/
def invalidPairs (merged : List MergedRow) : List (Nat × MergedRow) :=
  (enumIdx 0 merged).filter (fun p => isInvalidRow p.2)

/-- The filter employees_df[hire_date <= sale_date] followed by iloc[0]:
the first employee in table order hired on or before the sale date, none
when the filtered frame is empty. -/
def firstValidEmp (erows : List EmpRow) (sd : Option Int) : Option EmpRow :=
  (erows.filter (fun e => dtLe e.hire_date.value sd)).head?

/-- The write sales_df.at[idx, seller_employee_id] = v for a label within
the frame. A label beyond the frame, which pandas would answer by
enlarging it, is modelled as a no-op; under the index-alignment hypothesis
of the theorems below every written label is in range. -/
def setSellerAt (rows : List (SaleRow α)) (idx : Nat) (v : String) : List (SaleRow α) :=
  match rows.get? idx with
  | some r => rows.set idx { r with seller_employee_id := v }
  | none => rows

/-- One iteration of the reassignment loop at a flagged (label, row) pair:
when some employee was hired on or before the sale date, write the first
such employee id at that label of the sales frame; otherwise leave the
frame unchanged. -/
def reassignStep (erows : List EmpRow) (rs : List (SaleRow α)) (p : Nat × MergedRow) :
    List (SaleRow α) :=
  match firstValidEmp erows p.2.sale_date with
  | some e => setSellerAt rs p.1 e.employee_id
  | none => rs

/-- clean_data: skip (returning the input sales table unchanged) when a
required column is missing on either side; otherwise coerce the date
columns, join, flag, and run the reassignment loop over the flagged rows
in ascending label order. -/
def clean_data (parse : String → Option Int) (sales : SalesTable α) (emps : EmpTable) :
    SalesTable α :=
  if ¬ (sales.hasSaleDate = true ∧ sales.hasSellerId = true) then sales
  else if ¬ (emps.hasEmployeeId = true ∧ emps.hasHireDate = true) then sales
  else
    let srows := ensure_datetime_sales parse sales.rows
    let erows := ensure_datetime_emps parse emps.rows
    { sales with
      rows := (invalidPairs (mergedRows srows erows)).foldl (reassignStep erows) srows }

/-! ## Derived forms used by the reconciliation theorems -/

/-- The hire date the left join attaches to a given seller id when the id
matches at most one employee row: the hire date of the first (hence only)
matching row, or NaT when there is none. -/
def hireLookup (erows : List EmpRow) (sid : String) : Option Int :=
  match matchingEmps erows sid with
  | [] => none
  | e :: _ => e.hire_date.value

/-- The joined row a sale row produces under the at-most-one-match
hypothesis. -/
def gRow (erows : List EmpRow) (s : SaleRow α) : MergedRow :=
  ⟨s.sale_date.value, hireLookup erows s.seller_employee_id⟩

/-- Index alignment precondition: every seller id of the sales rows
matches at most one employee row (in particular when employee ids are
unique). -/
def Aligned (srows : List (SaleRow α)) (erows : List EmpRow) : Prop :=
  ∀ s ∈ srows, (matchingEmps erows s.seller_employee_id).length ≤ 1

instance (srows : List (SaleRow α)) (erows : List EmpRow) :
    Decidable (Aligned srows erows) := by
  unfold Aligned
  infer_instance

/-- The effect of one loop iteration on the row its label addresses. -/
def actAt (erows : List EmpRow) (m : MergedRow) (r : SaleRow α) : SaleRow α :=
  match firstValidEmp erows m.sale_date with
  | some e => { r with seller_employee_id := e.employee_id }
  | none => r

/-- The net effect of clean_data on one (already coerced) sale row under
the alignment hypothesis: flagged rows receive the first qualifying
employee id when one exists; everything else is untouched. -/
def reassignedRow (erows : List EmpRow) (s : SaleRow α) : SaleRow α :=
  if isInvalidRow (gRow erows s) then actAt erows (gRow erows s) s else s

/-! ## Reconciliation lemmas -/

theorem mergedRows_eq_map (srows : List (SaleRow α)) (erows : List EmpRow)
    (hU : Aligned srows erows) :
    mergedRows srows erows = srows.map (gRow erows) := by
  induction srows with
  | nil => rfl
  | cons s ss ih =>
      have ht : Aligned ss erows := fun x hx => hU x (by simp [hx])
      have hstep : mergedRows (s :: ss) erows =
          (match matchingEmps erows s.seller_employee_id with
            | [] => [(⟨s.sale_date.value, none⟩ : MergedRow)]
            | es => es.map (fun e => ⟨s.sale_date.value, e.hire_date.value⟩)) ++
            mergedRows ss erows := by
        unfold mergedRows
        rw [List.flatMap_cons]
      rw [hstep, ih ht, List.map_cons]
      have hs := hU s (by simp)
      cases hm : matchingEmps erows s.seller_employee_id with
      | nil => simp [gRow, hireLookup, hm]
      | cons e rest =>
          have hrest : rest = [] := by
            rw [hm] at hs
            cases rest with
            | nil => rfl
            | cons y ys => simp at hs
          subst hrest
          simp [gRow, hireLookup, hm]

theorem enumIdx_get? (k i : Nat) (l : List β) :
    (enumIdx k l).get? i = (l.get? i).map (fun a => (k + i, a)) := by
  induction l generalizing k i with
  | nil => rfl
  | cons a as ih =>
      cases i with
      | zero => rfl
      | succ n =>
          rw [show (enumIdx k (a :: as)).get? (n + 1) = (enumIdx (k + 1) as).get? n from rfl]
          rw [ih]
          rw [show (a :: as).get? (n + 1) = as.get? n from rfl]
          cases h : as.get? n with
          | none => rfl
          | some b =>
              have hkn : k + 1 + n = k + (n + 1) := by omega
              rw [hkn]

theorem mem_enumIdx_zero {l : List β} {p : Nat × β} :
    p ∈ enumIdx 0 l ↔ l.get? p.1 = some p.2 := by
  rw [List.mem_iff_get?]
  constructor
  · rintro ⟨n, hn⟩
    rw [enumIdx_get?] at hn
    cases h : l.get? n with
    | none => rw [h] at hn; simp at hn
    | some a =>
        rw [h] at hn
        have hp : ((0 + n : Nat), a) = p := by simpa using hn
        rw [← hp]
        simpa using h
  · intro h
    refine ⟨p.1, ?_⟩
    rw [enumIdx_get?, h]
    simp

theorem enumIdx_fst_ge {k : Nat} {l : List β} {p : Nat × β} (h : p ∈ enumIdx k l) :
    k ≤ p.1 := by
  induction l generalizing k with
  | nil => simp [enumIdx] at h
  | cons a as ih =>
      simp only [enumIdx, List.mem_cons] at h
      rcases h with h | h
      · rw [h]
      · have := ih h
        omega

theorem enumIdx_sorted (k : Nat) (l : List β) :
    (enumIdx k l).Pairwise (fun p q => p.1 < q.1) := by
  induction l generalizing k with
  | nil => exact List.Pairwise.nil
  | cons a as ih =>
      refine List.Pairwise.cons ?_ (ih (k + 1))
      intro q hq
      have := enumIdx_fst_ge hq
      omega

theorem reassignStep_get? (erows : List EmpRow) (rs : List (SaleRow α))
    (p : Nat × MergedRow) (j : Nat) :
    (reassignStep erows rs p).get? j =
      if p.1 = j then (rs.get? j).map (actAt erows p.2) else rs.get? j := by
  unfold reassignStep actAt
  cases hf : firstValidEmp erows p.2.sale_date with
  | none =>
      split_ifs with h
      · cases rs.get? j <;> rfl
      · rfl
  | some e =>
      unfold setSellerAt
      cases hp : rs.get? p.1 with
      | none =>
          split_ifs with h
          · rw [← h, hp]
            rfl
          · rfl
      | some r =>
          rw [List.get?_set]
          split_ifs with h
          · rw [← h, hp]
            rfl
          · rfl

theorem foldl_reassign_get? (erows : List EmpRow) (pairs : List (Nat × MergedRow))
    (hs : pairs.Pairwise (fun p q => p.1 < q.1)) (rs : List (SaleRow α)) (j : Nat) :
    (pairs.foldl (reassignStep erows) rs).get? j =
      match pairs.find? (fun p => p.1 = j) with
      | some p => (rs.get? j).map (actAt erows p.2)
      | none => rs.get? j := by
  induction pairs generalizing rs with
  | nil => rfl
  | cons q t ih =>
      rw [List.foldl_cons]
      rw [ih (List.pairwise_cons.mp hs).2]
      by_cases hqj : q.1 = j
      · rw [List.find?_cons_of_pos _ (by simpa using hqj)]
        have hnone : t.find? (fun p => p.1 = j) = none := by
          rw [List.find?_eq_none]
          intro x hx
          have := (List.pairwise_cons.mp hs).1 x hx
          simp only [decide_eq_true_eq]
          omega
        rw [hnone]
        have h := reassignStep_get? erows rs q j
        rw [if_pos hqj] at h
        rw [h]
      · rw [List.find?_cons_of_neg _ (by simpa using hqj)]
        have h := reassignStep_get? erows rs q j
        rw [if_neg hqj] at h
        rw [h]

theorem invalidPairs_find_aux (merged : List MergedRow) (k t : Nat) :
    ((enumIdx k merged).filter (fun p => isInvalidRow p.2)).find? (fun p => p.1 = t) =
      if k ≤ t then
        match merged.get? (t - k) with
        | some m => if isInvalidRow m then some (t, m) else none
        | none => none
      else none := by
  induction merged generalizing k with
  | nil =>
      show (List.find? _ []) = _
      split_ifs <;> rfl
  | cons m ms ih =>
      show ((((k, m) :: enumIdx (k + 1) ms).filter (fun p => isInvalidRow p.2)).find?
        (fun p => p.1 = t)) = _
      rw [List.filter_cons]
      by_cases hkt : k = t
      · subst hkt
        rw [if_pos (le_refl k), Nat.sub_self]
        by_cases hi : isInvalidRow m = true
        · rw [if_pos (by simpa using hi)]
          rw [List.find?_cons_of_pos _ (by simp)]
          simp [hi]
        · rw [if_neg (by simpa using hi)]
          have hnone : ((enumIdx (k + 1) ms).filter (fun p => isInvalidRow p.2)).find?
              (fun p => p.1 = k) = none := by
            rw [List.find?_eq_none]
            intro x hx
            have := enumIdx_fst_ge (List.mem_of_mem_filter hx)
            simp only [decide_eq_true_eq]
            omega
          rw [hnone]
          simp [hi]
      · have hstep : ((if isInvalidRow m = true then
            (k, m) :: (enumIdx (k + 1) ms).filter (fun p => isInvalidRow p.2)
            else (enumIdx (k + 1) ms).filter (fun p => isInvalidRow p.2)).find?
              (fun p => p.1 = t)) =
            ((enumIdx (k + 1) ms).filter (fun p => isInvalidRow p.2)).find?
              (fun p => p.1 = t) := by
          split_ifs with hi
          · exact List.find?_cons_of_neg _ (by simpa using hkt)
          · rfl
        rw [hstep, ih (k + 1)]
        by_cases hkt2 : k ≤ t
        · have hk1 : k + 1 ≤ t := by omega
          rw [if_pos hk1, if_pos hkt2]
          rw [show t - k = (t - (k + 1)) + 1 from by omega]
          rfl
        · rw [if_neg (by omega), if_neg hkt2]

theorem invalidPairs_find (merged : List MergedRow) (j : Nat) :
    (invalidPairs merged).find? (fun p => p.1 = j) =
      match merged.get? j with
      | some m => if isInvalidRow m then some (j, m) else none
      | none => none := by
  have h := invalidPairs_find_aux merged 0 j
  rw [if_pos (Nat.zero_le j), Nat.sub_zero] at h
  exact h

theorem invalidPairs_sorted (merged : List MergedRow) :
    (invalidPairs merged).Pairwise (fun p q => p.1 < q.1) :=
  (enumIdx_sorted 0 merged).filter _

theorem clean_data_char (parse : String → Option Int) (sales : SalesTable α) (emps : EmpTable)
    (h1 : sales.hasSaleDate = true) (h2 : sales.hasSellerId = true)
    (h3 : emps.hasEmployeeId = true) (h4 : emps.hasHireDate = true)
    (hU : Aligned (ensure_datetime_sales parse sales.rows)
      (ensure_datetime_emps parse emps.rows)) :
    clean_data parse sales emps =
      { sales with rows := ((ensure_datetime_sales parse sales.rows).map
          (reassignedRow (ensure_datetime_emps parse emps.rows))) } := by
  unfold clean_data
  rw [if_neg (by simp [h1, h2]), if_neg (by simp [h3, h4])]
  have hrows : ∀ j, ((invalidPairs (mergedRows (ensure_datetime_sales parse sales.rows)
        (ensure_datetime_emps parse emps.rows))).foldl
        (reassignStep (ensure_datetime_emps parse emps.rows))
        (ensure_datetime_sales parse sales.rows)).get? j =
      ((ensure_datetime_sales parse sales.rows).map
        (reassignedRow (ensure_datetime_emps parse emps.rows))).get? j := by
    intro j
    rw [foldl_reassign_get? _ _ (invalidPairs_sorted _)]
    rw [invalidPairs_find]
    rw [mergedRows_eq_map _ _ hU]
    rw [List.get?_map, List.get?_map]
    cases h : (ensure_datetime_sales parse sales.rows).get? j with
    | none => rfl
    | some s =>
        by_cases hi : isInvalidRow (gRow (ensure_datetime_emps parse emps.rows) s) = true
        · simp [hi, reassignedRow, h]
        · simp [hi, reassignedRow]
  show SalesTable.mk sales.hasSaleDate sales.hasSellerId
      (List.foldl (reassignStep (ensure_datetime_emps parse emps.rows))
        (ensure_datetime_sales parse sales.rows)
        (invalidPairs (mergedRows (ensure_datetime_sales parse sales.rows)
          (ensure_datetime_emps parse emps.rows)))) = _
  rw [List.ext_get? hrows]

/-! ## Supporting lemmas for the reconciliation claims -/

theorem filter_head?_first {γ : Type} {p : γ → Bool} {l : List γ} {e : γ}
    (h : (l.filter p).head? = some e) :
    p e = true ∧ ∃ pre post, l = pre ++ e :: post ∧ ∀ x ∈ pre, p x = false := by
  induction l with
  | nil => simp at h
  | cons x xs ih =>
      rw [List.filter_cons] at h
      by_cases hx : p x = true
      · rw [if_pos hx] at h
        simp only [List.head?_cons, Option.some_inj] at h
        subst h
        exact ⟨hx, [], xs, rfl, by simp⟩
      · rw [if_neg hx] at h
        obtain ⟨hp, pre, post, heq, hpre⟩ := ih h
        refine ⟨hp, x :: pre, post, by rw [heq]; rfl, ?_⟩
        intro y hy
        rcases List.mem_cons.mp hy with hy | hy
        · rw [hy]
          exact Bool.not_eq_true _ ▸ (by simpa using hx)
        · exact hpre y hy

theorem isInvalid_gRow_iff (erows : List EmpRow) (s : SaleRow α) :
    isInvalidRow (gRow erows s) = true ↔
      ∃ e, (matchingEmps erows s.seller_employee_id).head? = some e ∧
        dtLt s.sale_date.value e.hire_date.value = true := by
  unfold isInvalidRow gRow hireLookup
  cases hm : matchingEmps erows s.seller_employee_id with
  | nil =>
      cases s.sale_date.value <;> simp [dtLt]
  | cons e rest => simp

theorem ensure_sales_get? (parse : String → Option Int) (rows : List (SaleRow α)) (j : Nat) :
    (ensure_datetime_sales parse rows).get? j =
      (rows.get? j).map (fun r => { r with sale_date := Cell.dt (r.sale_date.toDt parse) }) := by
  unfold ensure_datetime_sales
  split_ifs with h
  · cases hj : rows.get? j with
    | none => rfl
    | some r =>
        have hdt : r.sale_date.isDt = true := by
          rw [List.all_eq_true] at h
          exact h r (List.get?_mem hj)
        cases r with
        | mk sd sid oth =>
            cases sd with
            | dt d => rfl
            | raw str => simp [Cell.isDt] at hdt
  · rw [List.get?_map]

theorem ensure_sales_length (parse : String → Option Int) (rows : List (SaleRow α)) :
    (ensure_datetime_sales parse rows).length = rows.length := by
  unfold ensure_datetime_sales
  split_ifs
  · rfl
  · exact List.length_map _ _

theorem reassignedRow_other (erows : List EmpRow) (s : SaleRow α) :
    (reassignedRow erows s).other = s.other := by
  unfold reassignedRow actAt
  split_ifs with h
  · cases firstValidEmp erows (gRow erows s).sale_date <;> rfl
  · rfl

theorem reassignedRow_sale_date (erows : List EmpRow) (s : SaleRow α) :
    (reassignedRow erows s).sale_date = s.sale_date := by
  unfold reassignedRow actAt
  split_ifs with h
  · cases firstValidEmp erows (gRow erows s).sale_date <;> rfl
  · rfl

/-! ## Fixtures -/

/-- Employee table of the end-to-end scenario in the spec: E1 hired at
time 100, E2 hired at time 500. -/
def specEmps : EmpTable :=
  EmpTable.mk true true [EmpRow.mk "E1" (Cell.dt (some 100)), EmpRow.mk "E2" (Cell.dt (some 500))]

/-- Sales table of the end-to-end scenario: a valid sale by E1 and a sale
at time 499 attributed to E2, hired later. -/
def specSales : SalesTable Unit :=
  SalesTable.mk true true
    [SaleRow.mk (Cell.dt (some 499)) "E1" (), SaleRow.mk (Cell.dt (some 499)) "E2" ()]

/-- Employee table with a duplicated employee id A (two rows) and B. -/
def cexEmps : EmpTable :=
  EmpTable.mk true true
    [EmpRow.mk "A" (Cell.dt (some 0)), EmpRow.mk "A" (Cell.dt (some 0)),
      EmpRow.mk "B" (Cell.dt (some 99))]

/-- Sales at time 5 by A (valid, doubly joined), B (invalid, hired at 99)
and C (matching no employee). -/
def cexSales : SalesTable Unit :=
  SalesTable.mk true true
    [SaleRow.mk (Cell.dt (some 5)) "A" (), SaleRow.mk (Cell.dt (some 5)) "B" (),
      SaleRow.mk (Cell.dt (some 5)) "C" ()]

/-- One sale whose sale_date is a raw unparseable value. -/
def rawSales : SalesTable Unit :=
  SalesTable.mk true true [SaleRow.mk (Cell.raw "not-a-date") "E1" ()]

/-- Employee table with the required columns and no rows. -/
def emptyEmps : EmpTable := EmpTable.mk true true []

/-- C5: when a required column (sale_date or seller_employee_id on the
sales side, employee_id or hire_date on the employee side) is missing,
clean_data returns the sales table unchanged; being a total function, the
model cannot raise. -/
theorem clean_data_skips_on_missing_columns (parse : String → Option Int)
    (sales : SalesTable α) (emps : EmpTable)
    (h : sales.hasSaleDate = false ∨ sales.hasSellerId = false ∨
      emps.hasEmployeeId = false ∨ emps.hasHireDate = false) :
    clean_data parse sales emps = sales := by
  unfold clean_data
  split_ifs with hA hB
  · exfalso
    rcases h with h | h | h | h <;> simp_all
  · rfl
  · rfl

/-- C5 witness: a sales table missing the sale_date column passes through
unchanged. -/
theorem clean_data_skips_witness :
    clean_data (fun _ => none) (SalesTable.mk false true [] : SalesTable Unit)
      (EmpTable.mk true true []) = SalesTable.mk false true [] :=
  clean_data_skips_on_missing_columns _ _ _ (Or.inl rfl)

/-- C9: when every seller id of the (coerced) sales rows matches at most
one employee row, the joined frame is exactly the row-for-row image of the
sales rows (same length, same positional index), and consequently
clean_data acts on each sales row at its own index through reassignedRow. -/
theorem merged_index_alignment (parse : String → Option Int) (sales : SalesTable α)
    (emps : EmpTable)
    (h1 : sales.hasSaleDate = true) (h2 : sales.hasSellerId = true)
    (h3 : emps.hasEmployeeId = true) (h4 : emps.hasHireDate = true)
    (hU : Aligned (ensure_datetime_sales parse sales.rows)
      (ensure_datetime_emps parse emps.rows)) :
    mergedRows (ensure_datetime_sales parse sales.rows)
        (ensure_datetime_emps parse emps.rows) =
      (ensure_datetime_sales parse sales.rows).map
        (gRow (ensure_datetime_emps parse emps.rows)) ∧
    (mergedRows (ensure_datetime_sales parse sales.rows)
        (ensure_datetime_emps parse emps.rows)).length =
      (ensure_datetime_sales parse sales.rows).length ∧
    ∀ j, (clean_data parse sales emps).rows.get? j =
      ((ensure_datetime_sales parse sales.rows).get? j).map
        (reassignedRow (ensure_datetime_emps parse emps.rows)) := by
  refine ⟨mergedRows_eq_map _ _ hU, ?_, ?_⟩
  · rw [mergedRows_eq_map _ _ hU, List.length_map]
  · intro j
    rw [clean_data_char parse sales emps h1 h2 h3 h4 hU]
    exact List.get?_map _ _ _

/-- C9 witness: the alignment conclusions evaluated on the end-to-end
fixture (unique employee ids), at index 1. -/
theorem merged_index_alignment_witness :
    (mergedRows (ensure_datetime_sales (fun _ => none) specSales.rows)
        (ensure_datetime_emps (fun _ => none) specEmps.rows)).length =
      (ensure_datetime_sales (fun _ => none) specSales.rows).length ∧
    (clean_data (fun _ => none) specSales specEmps).rows.get? 1 =
      ((ensure_datetime_sales (fun _ => none) specSales.rows).get? 1).map
        (reassignedRow (ensure_datetime_emps (fun _ => none) specEmps.rows)) := by
  have h := merged_index_alignment (fun _ => none) specSales specEmps rfl rfl rfl rfl
    (by decide)
  exact ⟨h.2.1, h.2.2 1⟩

/-- C1 counterexample: with a duplicated employee id the joined frame is
longer than the sales frame; the sale at row 1 (seller B, hired at 99,
sale at 5) is the one flagged invalid (at joined label 2) and employee A
qualifies (hire 0 at or before 5) and comes first, yet clean_data leaves
row 1 attributed to B. -/
theorem reassignment_misaligned_cex :
    invalidPairs (mergedRows cexSales.rows cexEmps.rows) =
      [(2, MergedRow.mk (some 5) (some 99))] ∧
    isInvalidRow (gRow cexEmps.rows (SaleRow.mk (Cell.dt (some 5)) "B" ())) = true ∧
    (firstValidEmp cexEmps.rows (some 5)).map (fun e => e.employee_id) = some "A" ∧
    (cexSales.rows.get? 1).map (fun r => r.seller_employee_id) = some "B" ∧
    ((clean_data (fun _ => none) cexSales cexEmps).rows.get? 1).map
      (fun r => r.seller_employee_id) = some "B" := by
  decide

/-- C1 amended: under the at-most-one-match precondition, for a sale row
flagged invalid, when the employee filter hire_date at or before sale_date
is nonempty its first element (first in employee-table order among all
qualifying employees) becomes the seller of exactly that sale; when no
employee qualifies the row is unchanged. -/
theorem reassignment_first_qualifying (parse : String → Option Int) (sales : SalesTable α)
    (emps : EmpTable)
    (h1 : sales.hasSaleDate = true) (h2 : sales.hasSellerId = true)
    (h3 : emps.hasEmployeeId = true) (h4 : emps.hasHireDate = true)
    (hU : Aligned (ensure_datetime_sales parse sales.rows)
      (ensure_datetime_emps parse emps.rows))
    (j : Nat) (s : SaleRow α)
    (hs : (ensure_datetime_sales parse sales.rows).get? j = some s)
    (hinv : isInvalidRow (gRow (ensure_datetime_emps parse emps.rows) s) = true) :
    (∀ e, firstValidEmp (ensure_datetime_emps parse emps.rows) s.sale_date.value = some e →
      (clean_data parse sales emps).rows.get? j =
        some { s with seller_employee_id := e.employee_id } ∧
      dtLe e.hire_date.value s.sale_date.value = true ∧
      ∃ pre post, ensure_datetime_emps parse emps.rows = pre ++ e :: post ∧
        ∀ x ∈ pre, dtLe x.hire_date.value s.sale_date.value = false) ∧
    (firstValidEmp (ensure_datetime_emps parse emps.rows) s.sale_date.value = none →
      (clean_data parse sales emps).rows.get? j = some s) := by
  have hchar := clean_data_char parse sales emps h1 h2 h3 h4 hU
  constructor
  · intro e he
    have he2 : ((ensure_datetime_emps parse emps.rows).filter
        (fun x => dtLe x.hire_date.value s.sale_date.value)).head? = some e := he
    have hfirst := filter_head?_first he2
    refine ⟨?_, hfirst.1, hfirst.2⟩
    rw [hchar]
    show ((ensure_datetime_sales parse sales.rows).map
      (reassignedRow (ensure_datetime_emps parse emps.rows))).get? j = _
    rw [List.get?_map, hs]
    have hsd : (gRow (ensure_datetime_emps parse emps.rows) s).sale_date =
      s.sale_date.value := rfl
    simp [reassignedRow, hinv, actAt, hsd, he]
  · intro he
    rw [hchar]
    show ((ensure_datetime_sales parse sales.rows).map
      (reassignedRow (ensure_datetime_emps parse emps.rows))).get? j = _
    rw [List.get?_map, hs]
    have hsd : (gRow (ensure_datetime_emps parse emps.rows) s).sale_date =
      s.sale_date.value := rfl
    simp [reassignedRow, hinv, actAt, hsd, he]

/-- C1 witness: on the end-to-end fixture the invalid sale at row 1 is
reassigned to E1, the first qualifying employee. -/
theorem reassignment_first_qualifying_witness :
    (clean_data (fun _ => none) specSales specEmps).rows.get? 1 =
      some (SaleRow.mk (Cell.dt (some 499)) "E1" ()) :=
  ((reassignment_first_qualifying (fun _ => none) specSales specEmps rfl rfl rfl rfl
    (by decide) 1 (SaleRow.mk (Cell.dt (some 499)) "E2" ()) (by decide) (by decide)).1
    (EmpRow.mk "E1" (Cell.dt (some 100))) (by decide)).1

/-- C2 counterexample: the sale at row 2 is attributed to C, an id that
matches no employee, so it is never flagged; yet under the duplicated
employee id the loop writes into row 2 and changes its seller to A. -/
theorem unmatched_sale_modified_cex :
    matchingEmps cexEmps.rows "C" = [] ∧
    (cexSales.rows.get? 2).map (fun r => r.seller_employee_id) = some "C" ∧
    ((clean_data (fun _ => none) cexSales cexEmps).rows.get? 2).map
      (fun r => r.seller_employee_id) = some "A" := by
  decide

/-- C2 amended: under the at-most-one-match precondition, a label is
flagged invalid exactly when its own sale row joins to an employee (the
first matching row) whose hire date strictly exceeds the sale date; and a
sale row that is not flagged is returned unchanged by clean_data. -/
theorem invalid_flag_iff (parse : String → Option Int) (sales : SalesTable α)
    (emps : EmpTable)
    (h1 : sales.hasSaleDate = true) (h2 : sales.hasSellerId = true)
    (h3 : emps.hasEmployeeId = true) (h4 : emps.hasHireDate = true)
    (hU : Aligned (ensure_datetime_sales parse sales.rows)
      (ensure_datetime_emps parse emps.rows))
    (j : Nat) :
    ((∃ m, (j, m) ∈ invalidPairs (mergedRows (ensure_datetime_sales parse sales.rows)
        (ensure_datetime_emps parse emps.rows))) ↔
      (∃ s e, (ensure_datetime_sales parse sales.rows).get? j = some s ∧
        (matchingEmps (ensure_datetime_emps parse emps.rows)
          s.seller_employee_id).head? = some e ∧
        dtLt s.sale_date.value e.hire_date.value = true)) ∧
    (∀ s, (ensure_datetime_sales parse sales.rows).get? j = some s →
      isInvalidRow (gRow (ensure_datetime_emps parse emps.rows) s) = false →
      (clean_data parse sales emps).rows.get? j = some s) := by
  constructor
  · constructor
    · rintro ⟨m, hm⟩
      have hmem := List.mem_of_mem_filter hm
      have hinv : isInvalidRow m = true := by
        have := List.mem_filter.mp hm
        simpa using this.2
      have hget := mem_enumIdx_zero.mp hmem
      rw [mergedRows_eq_map _ _ hU, List.get?_map] at hget
      cases hs : (ensure_datetime_sales parse sales.rows).get? j with
      | none => rw [hs] at hget; simp at hget
      | some s =>
          rw [hs] at hget
          have hget2 : gRow (ensure_datetime_emps parse emps.rows) s = m := by
            simpa using hget
          obtain ⟨e, he, hlt⟩ := (isInvalid_gRow_iff _ s).mp (by rw [hget2]; exact hinv)
          exact ⟨s, e, rfl, he, hlt⟩
    · rintro ⟨s, e, hs, he, hlt⟩
      refine ⟨gRow (ensure_datetime_emps parse emps.rows) s, ?_⟩
      have hinv : isInvalidRow (gRow (ensure_datetime_emps parse emps.rows) s) = true :=
        (isInvalid_gRow_iff _ s).mpr ⟨e, he, hlt⟩
      show (j, gRow (ensure_datetime_emps parse emps.rows) s) ∈
        (enumIdx 0 (mergedRows (ensure_datetime_sales parse sales.rows)
          (ensure_datetime_emps parse emps.rows))).filter (fun p => isInvalidRow p.2)
      rw [List.mem_filter]
      refine ⟨?_, by simpa using hinv⟩
      rw [mem_enumIdx_zero]
      rw [mergedRows_eq_map _ _ hU, List.get?_map, hs]
      rfl
  · intro s hs hninv
    rw [clean_data_char parse sales emps h1 h2 h3 h4 hU]
    show ((ensure_datetime_sales parse sales.rows).map
      (reassignedRow (ensure_datetime_emps parse emps.rows))).get? j = _
    rw [List.get?_map, hs]
    simp [reassignedRow, hninv]

/-- C2 witness: on the end-to-end fixture the valid sale at row 0 (E1
hired at 100 before the sale at 499) passes through unchanged. -/
theorem invalid_flag_iff_witness :
    (clean_data (fun _ => none) specSales specEmps).rows.get? 0 =
      some (SaleRow.mk (Cell.dt (some 499)) "E1" ()) :=
  (invalid_flag_iff (fun _ => none) specSales specEmps rfl rfl rfl rfl (by decide) 0).2
    (SaleRow.mk (Cell.dt (some 499)) "E1" ()) (by decide) (by decide)

/-- C4 counterexample: a sales table whose sale_date column holds an
unparseable raw value is changed by clean_data (the column is coerced to
datetime, the value becoming NaT) even though the seller column is
untouched, refuting the claim that only seller_employee_id can change. -/
theorem coercion_changes_sale_date_cex :
    clean_data (fun _ => none) rawSales emptyEmps ≠ rawSales ∧
    ((clean_data (fun _ => none) rawSales emptyEmps).rows.map
      (fun r => r.seller_employee_id)) = rawSales.rows.map (fun r => r.seller_employee_id) := by
  decide

/-- C4 amended: when reconciliation is not skipped and each seller matches
at most one employee row, the returned table has exactly the input rows
with only seller_employee_id possibly rewritten and sale_date replaced by
its datetime coercion (the identity on a column already of datetime
dtype); every other field of every row is unchanged. -/
theorem clean_data_frame (parse : String → Option Int) (sales : SalesTable α)
    (emps : EmpTable)
    (h1 : sales.hasSaleDate = true) (h2 : sales.hasSellerId = true)
    (h3 : emps.hasEmployeeId = true) (h4 : emps.hasHireDate = true)
    (hU : Aligned (ensure_datetime_sales parse sales.rows)
      (ensure_datetime_emps parse emps.rows)) :
    (clean_data parse sales emps).rows.length = sales.rows.length ∧
    (∀ j, ((clean_data parse sales emps).rows.get? j).map (fun r => r.other) =
      (sales.rows.get? j).map (fun r => r.other)) ∧
    (∀ j, ((clean_data parse sales emps).rows.get? j).map (fun r => r.sale_date) =
      (sales.rows.get? j).map (fun r => Cell.dt (r.sale_date.toDt parse))) := by
  have hchar := clean_data_char parse sales emps h1 h2 h3 h4 hU
  rw [hchar]
  refine ⟨?_, ?_, ?_⟩
  · show ((ensure_datetime_sales parse sales.rows).map
      (reassignedRow (ensure_datetime_emps parse emps.rows))).length = _
    rw [List.length_map, ensure_sales_length]
  · intro j
    show (((ensure_datetime_sales parse sales.rows).map
      (reassignedRow (ensure_datetime_emps parse emps.rows))).get? j).map
        (fun r => r.other) = _
    rw [List.get?_map, ensure_sales_get?]
    cases sales.rows.get? j with
    | none => rfl
    | some r => simp [reassignedRow_other]
  · intro j
    show (((ensure_datetime_sales parse sales.rows).map
      (reassignedRow (ensure_datetime_emps parse emps.rows))).get? j).map
        (fun r => r.sale_date) = _
    rw [List.get?_map, ensure_sales_get?]
    cases sales.rows.get? j with
    | none => rfl
    | some r => simp [reassignedRow_sale_date]

/-- C4 witness: the frame conclusions evaluated on the end-to-end fixture
at index 1 (the reassigned row: same other fields, same dates). -/
theorem clean_data_frame_witness :
    (clean_data (fun _ => none) specSales specEmps).rows.length = specSales.rows.length ∧
    ((clean_data (fun _ => none) specSales specEmps).rows.get? 1).map (fun r => r.other) =
      (specSales.rows.get? 1).map (fun r => r.other) ∧
    ((clean_data (fun _ => none) specSales specEmps).rows.get? 1).map
        (fun r => r.sale_date) =
      (specSales.rows.get? 1).map (fun r => Cell.dt (r.sale_date.toDt (fun _ => none))) := by
  have h := clean_data_frame (fun _ => none) specSales specEmps rfl rfl rfl rfl (by decide)
  exact ⟨h.1, h.2.1 1, h.2.2 1⟩
